import Mathlib

/-!
Shallow embedding of the MoshBrosh datamosh engine
(src/MoshBrosh/MoshBrosh.cpp, src/MoshBrosh/MoshBrosh.r header section,
src/MoshBrosh/CLI/moshbrosh_cli.cpp).

C `float`/`double` values are embedded as rationals (`ℚ`); machine integers
(`int`, `int16_t`, `int32_t`) are embedded as `ℤ` (no arithmetic in the
modelled code approaches the 32-bit overflow range for the parameter values
the claims quantify over).  A decoded image (`Frame` in the CLI,
`AccumulatedFrame` in the plugin) is a width, a height and a pixel map;
row-major flat-array indexing `pixels[(y*width + x)*4 + c]` is abstracted as
the map applied at `(x, y, c)` — every access in the embedded code is of
that shape.
-/

namespace MoshBrosh

/-- One decoded image: `Frame` (CLI) / `AccumulatedFrame` (plugin header).
`pix x y c` is channel `c` (0..3) of the pixel at column `x`, row `y`. -/
structure Frame where
  width : ℤ
  height : ℤ
  pix : ℤ → ℤ → ℕ → ℚ

/-- The helper `Clamp` from the CLI and the plugin header:
`std::max(minVal, std::min(value, maxVal))`. -/
def Clamp (value minVal maxVal : ℤ) : ℤ := max minVal (min value maxVal)

/-- Embedding of C `fabsf` on the rational embedding of `float`. -/
def ratAbs (q : ℚ) : ℚ := if q < 0 then -q else q

/-- The index list `[0, 1, ..., n-1]` of a C `for` loop running while the
counter is `< n` (empty when `n ≤ 0`). -/
def intRange (n : ℤ) : List ℤ := List.map (fun k : ℕ => Int.ofNat k) (List.range n.toNat)

/-- The helper `GetLuminance` (moshbrosh_cli.cpp): `0.299*R + 0.587*G + 0.114*B` on an
RGBA pixel, applied here to the pixel of `F` at `(x, y)`. -/
def GetLuminance (F : Frame) (x y : ℤ) : ℚ :=
  (299/1000) * F.pix x y 0 + (587/1000) * F.pix x y 1 + (114/1000) * F.pix x y 2

/-- The SAD accumulated by the two inner loops of `ComputeBlockMotion`
(moshbrosh_cli.cpp lines 84-101) for one candidate displacement `(dx, dy)`:
pixels of the block whose shifted coordinate falls outside the frame are
skipped (contribute nothing). `bx`/`byv` are the pixel origin of the block. -/
def sadAt (current previous : Frame) (w h bx byv bs dx dy : ℤ) : ℚ :=
  (intRange (min bs (h - byv))).foldl (fun acc py =>
    let cy := byv + py
    let ry := cy + dy
    if ry < 0 ∨ h ≤ ry then acc
    else (intRange (min bs (w - bx))).foldl (fun acc2 px =>
      let cx := bx + px
      let rx := cx + dx
      if rx < 0 ∨ w ≤ rx then acc2
      else acc2 + ratAbs (GetLuminance current cx cy - GetLuminance previous rx ry)) acc) 0

/-- The values taken by a loop `for (d = -r; d <= r; d += 2)`:
`-r, -r+2, ..., r` (empty when `r < 0`). -/
def searchOffsets (r : ℤ) : List ℤ :=
  if r < 0 then [] else
    List.map (fun k : ℕ => -r + 2 * Int.ofNat k) (List.range (r.toNat + 1))

/-- The candidate displacements of `ComputeBlockMotion` in scan order:
`dy` outer, `dx` inner, both ascending from `-r` in steps of 2.
Elements are `(dx, dy)` pairs. -/
def scanCandidates (r : ℤ) : List (ℤ × ℤ) :=
  (searchOffsets r).flatMap (fun dy => (searchOffsets r).map (fun dx => (dx, dy)))

/-- The running-best fold of `ComputeBlockMotion`: a candidate replaces the
best only under strictly-less-than comparison of its SAD. -/
def bestScan (f : ℤ × ℤ → ℚ) (l : List (ℤ × ℤ)) (init : (ℤ × ℤ) × ℚ) : (ℤ × ℤ) × ℚ :=
  l.foldl (fun best c => if f c < best.2 then (c, f c) else best) init

/-- The estimator `ComputeBlockMotion` (moshbrosh_cli.cpp lines 68-113): best SAD starts at
`1e30`, initial best displacement `(0, 0)`; the scan is `dy` outer / `dx`
inner, stepping by 2. -/
def computeBlockMotion (current previous : Frame) (w h blockX blockY bs r : ℤ) : ℤ × ℤ :=
  let bx := blockX * bs
  let byv := blockY * bs
  (bestScan (fun c => sadAt current previous w h bx byv bs c.1 c.2)
    (scanCandidates r) ((0, 0), 10 ^ 30)).1

/-! ### Generic fold lemmas used to reason about the SAD loops -/

theorem foldl_step_mono {α : Type} (F : ℚ → α → ℚ) (h : ∀ a x, a ≤ F a x) :
    ∀ (l : List α) (a0 : ℚ), a0 ≤ l.foldl F a0 := by
  intro l
  induction l with
  | nil => intro a0; simp
  | cons x xs ih => intro a0; exact le_trans (h a0 x) (ih (F a0 x))

theorem foldl_step_le {α : Type} (F : ℚ → α → ℚ) (B : ℚ) (h : ∀ a x, F a x ≤ a + B) :
    ∀ (l : List α) (a0 : ℚ), l.foldl F a0 ≤ a0 + l.length * B := by
  intro l
  induction l with
  | nil => intro a0; simp
  | cons x xs ih =>
      intro a0
      have h1 := h a0 x
      have h2 := ih (F a0 x)
      calc (x :: xs).foldl F a0 = xs.foldl F (F a0 x) := rfl
        _ ≤ F a0 x + xs.length * B := h2
        _ ≤ a0 + ((x :: xs).length : ℚ) * B := by
            push_cast [List.length_cons]; linarith

theorem foldl_congr_id {α : Type} (F : ℚ → α → ℚ) (h : ∀ a x, F a x = a) :
    ∀ (l : List α) (a0 : ℚ), l.foldl F a0 = a0 := by
  intro l
  induction l with
  | nil => intro a0; simp
  | cons x xs ih => intro a0; rw [List.foldl_cons, h a0 x, ih a0]

theorem ratAbs_nonneg (q : ℚ) : 0 ≤ ratAbs q := by
  unfold ratAbs; split <;> linarith

theorem ratAbs_sub_le_one {a b : ℚ} (ha0 : 0 ≤ a) (ha1 : a ≤ 1) (hb0 : 0 ≤ b)
    (hb1 : b ≤ 1) : ratAbs (a - b) ≤ 1 := by
  unfold ratAbs; split <;> linarith

theorem GetLuminance_bounds {F : Frame}
    (hF : ∀ x y c, 0 ≤ F.pix x y c ∧ F.pix x y c ≤ 1) (x y : ℤ) :
    0 ≤ GetLuminance F x y ∧ GetLuminance F x y ≤ 1 := by
  have h0 := hF x y 0
  have h1 := hF x y 1
  have h2 := hF x y 2
  unfold GetLuminance
  constructor <;> linarith [h0.1, h0.2, h1.1, h1.2, h2.1, h2.2]

theorem intRange_length (n : ℤ) : (intRange n).length = n.toNat := by
  unfold intRange
  rw [List.length_map, List.length_range]

/-! ### Bounds on the per-candidate SAD -/

theorem sadAt_nonneg (current previous : Frame) (w h bx byv bs dx dy : ℤ) :
    0 ≤ sadAt current previous w h bx byv bs dx dy := by
  unfold sadAt
  refine foldl_step_mono _ ?_ _ 0
  intro a py
  dsimp only
  split
  · exact le_refl a
  · refine foldl_step_mono _ ?_ _ a
    intro a2 px
    dsimp only
    split
    · exact le_refl a2
    · linarith [ratAbs_nonneg (GetLuminance current (bx + px) (byv + py) -
        GetLuminance previous (bx + px + dx) (byv + py + dy))]

theorem sadAt_le {current previous : Frame}
    (hcur : ∀ x y c, 0 ≤ current.pix x y c ∧ current.pix x y c ≤ 1)
    (hprev : ∀ x y c, 0 ≤ previous.pix x y c ∧ previous.pix x y c ≤ 1)
    (w h bx byv bs dx dy : ℤ) :
    sadAt current previous w h bx byv bs dx dy ≤ (bs.toNat : ℚ) * bs.toNat := by
  have hinner : ∀ (a : ℚ) (py : ℤ),
      (intRange (min bs (w - bx))).foldl (fun acc2 px =>
        let cx := bx + px
        let rx := cx + dx
        if rx < 0 ∨ w ≤ rx then acc2
        else acc2 + ratAbs (GetLuminance current cx (byv + py) -
          GetLuminance previous rx (byv + py + dy))) a ≤ a + (bs.toNat : ℚ) := by
    intro a py
    have hb : ((min bs (w - bx)).toNat : ℚ) ≤ (bs.toNat : ℚ) := by
      have : (min bs (w - bx)).toNat ≤ bs.toNat := Int.toNat_le_toNat (min_le_left _ _)
      exact_mod_cast this
    have := foldl_step_le (fun acc2 px =>
        let cx := bx + px
        let rx := cx + dx
        if rx < 0 ∨ w ≤ rx then acc2
        else acc2 + ratAbs (GetLuminance current cx (byv + py) -
          GetLuminance previous rx (byv + py + dy))) 1 ?_ (intRange (min bs (w - bx))) a
    · rw [intRange_length] at this
      calc _ ≤ a + ((min bs (w - bx)).toNat : ℚ) * 1 := this
        _ ≤ a + (bs.toNat : ℚ) := by linarith
    · intro a2 px
      dsimp only
      split
      · linarith
      · have hc := GetLuminance_bounds hcur (bx + px) (byv + py)
        have hp := GetLuminance_bounds hprev (bx + px + dx) (byv + py + dy)
        have := ratAbs_sub_le_one hc.1 hc.2 hp.1 hp.2
        linarith
  unfold sadAt
  have houter := foldl_step_le (fun acc py =>
      let cy := byv + py
      let ry := cy + dy
      if ry < 0 ∨ h ≤ ry then acc
      else (intRange (min bs (w - bx))).foldl (fun acc2 px =>
        let cx := bx + px
        let rx := cx + dx
        if rx < 0 ∨ w ≤ rx then acc2
        else acc2 + ratAbs (GetLuminance current cx cy -
          GetLuminance previous rx ry)) acc) (bs.toNat : ℚ) ?_
    (intRange (min bs (h - byv))) 0
  · rw [intRange_length] at houter
    have hb : ((min bs (h - byv)).toNat : ℚ) ≤ (bs.toNat : ℚ) := by
      have : (min bs (h - byv)).toNat ≤ bs.toNat := Int.toNat_le_toNat (min_le_left _ _)
      exact_mod_cast this
    have hbs0 : (0 : ℚ) ≤ (bs.toNat : ℚ) := by positivity
    calc _ ≤ 0 + ((min bs (h - byv)).toNat : ℚ) * (bs.toNat : ℚ) := houter
      _ ≤ (bs.toNat : ℚ) * (bs.toNat : ℚ) := by nlinarith
  · intro a py
    dsimp only
    split
    · have : (0 : ℚ) ≤ (bs.toNat : ℚ) := by positivity
      linarith
    · exact hinner a py

/-! ### Characterisation of the running-best scan -/

theorem bestScan_spec (f : ℤ × ℤ → ℚ) :
    ∀ (l : List (ℤ × ℤ)) (b0 : ℤ × ℤ) (s0 : ℚ) (b : ℤ × ℤ) (s : ℚ),
      bestScan f l (b0, s0) = (b, s) →
      s ≤ s0 ∧ (∀ c ∈ l, s ≤ f c) ∧
        ((b, s) = (b0, s0) ∨
          ∃ l1 l2, l = l1 ++ b :: l2 ∧ s = f b ∧ s < s0 ∧ ∀ c ∈ l1, s < f c) := by
  intro l
  induction l with
  | nil =>
      intro b0 s0 b s hbs
      unfold bestScan at hbs
      simp only [List.foldl_nil] at hbs
      refine ⟨le_of_eq (congrArg Prod.snd hbs).symm, by simp, Or.inl hbs.symm⟩
  | cons c cs ih =>
      intro b0 s0 b s hbs
      unfold bestScan at hbs ih
      rw [List.foldl_cons] at hbs
      by_cases hlt : f c < s0
      · rw [if_pos hlt] at hbs
        obtain ⟨h1, h2, h3⟩ := ih c (f c) b s hbs
        refine ⟨le_of_lt (lt_of_le_of_lt h1 hlt), ?_, ?_⟩
        · intro x hx
          rcases List.mem_cons.mp hx with hx | hx
          · exact hx ▸ h1
          · exact h2 x hx
        · rcases h3 with h3 | ⟨l1, l2, hl, hs, hss, hall⟩
          · injection h3 with hb hsv
            subst hb
            subst hsv
            exact Or.inr ⟨[], cs, rfl, rfl, hlt, by simp⟩
          · refine Or.inr ⟨c :: l1, l2, by rw [hl]; rfl, hs, lt_trans hss hlt, ?_⟩
            intro x hx
            rcases List.mem_cons.mp hx with hx | hx
            · exact hx ▸ hss
            · exact hall x hx
      · rw [if_neg hlt] at hbs
        obtain ⟨h1, h2, h3⟩ := ih b0 s0 b s hbs
        refine ⟨h1, ?_, ?_⟩
        · intro x hx
          rcases List.mem_cons.mp hx with hx | hx
          · exact hx ▸ le_trans h1 (le_of_not_lt hlt)
          · exact h2 x hx
        · rcases h3 with h3 | ⟨l1, l2, hl, hs, hss, hall⟩
          · exact Or.inl h3
          · refine Or.inr ⟨c :: l1, l2, by rw [hl]; rfl, hs, hss, ?_⟩
            intro x hx
            rcases List.mem_cons.mp hx with hx | hx
            · exact hx ▸ lt_of_lt_of_le hss (le_of_not_lt hlt)
            · exact hall x hx

theorem searchOffsets_mem {r : ℤ} (hr : 0 ≤ r) (k : ℕ) (hk : (k : ℤ) ≤ r) :
    -r + 2 * (k : ℤ) ∈ searchOffsets r := by
  unfold searchOffsets
  rw [if_neg (not_lt.mpr hr)]
  refine List.mem_map.mpr ⟨k, List.mem_range.mpr ?_, rfl⟩
  omega

theorem mem_searchOffsets {d r : ℤ} (h : d ∈ searchOffsets r) :
    ∃ k : ℕ, (k : ℤ) ≤ r ∧ d = -r + 2 * (k : ℤ) := by
  unfold searchOffsets at h
  by_cases hr : r < 0
  · rw [if_pos hr] at h
    exact absurd h (List.not_mem_nil d)
  · rw [if_neg hr] at h
    obtain ⟨k, hk, hkd⟩ := List.mem_map.mp h
    exact ⟨k, by have := List.mem_range.mp hk; omega, hkd.symm⟩

theorem mem_scanCandidates {c : ℤ × ℤ} {r : ℤ} (h : c ∈ scanCandidates r) :
    c.1 ∈ searchOffsets r ∧ c.2 ∈ searchOffsets r := by
  unfold scanCandidates at h
  obtain ⟨dy, hdy, hc⟩ := List.mem_flatMap.mp h
  obtain ⟨dx, hdx, hcc⟩ := List.mem_map.mp hc
  rw [← hcc]
  exact ⟨hdx, hdy⟩

theorem scanCandidates_mem {dx dy r : ℤ} (hx : dx ∈ searchOffsets r)
    (hy : dy ∈ searchOffsets r) : (dx, dy) ∈ scanCandidates r := by
  unfold scanCandidates
  exact List.mem_flatMap.mpr ⟨dy, hy, List.mem_map.mpr ⟨dx, hx, rfl⟩⟩

/-- With `dx = dy = 0` and identical frames every compared pixel pair is the
same pixel, so the SAD accumulates only zeros. -/
theorem sadAt_self_zero (F : Frame) (w h bx byv bs : ℤ) :
    sadAt F F w h bx byv bs 0 0 = 0 := by
  unfold sadAt
  refine foldl_congr_id _ ?_ _ 0
  intro a py
  dsimp only
  rw [add_zero]
  split
  · rfl
  · refine foldl_congr_id _ ?_ _ a
    intro a2 px
    dsimp only
    rw [add_zero]
    split
    · rfl
    · rw [sub_self]
      unfold ratAbs
      rw [if_neg (by norm_num)]
      exact add_zero a2

/-- Shared characterisation of `ComputeBlockMotion`: under the data-model
pixel bounds (decoded pixels lie in `[0,1]`) and any block size at most
`2^30`, the first scanned candidate always beats the `1e30` sentinel, and the
function returns the first candidate of the scan attaining the minimal SAD. -/
theorem computeBlockMotion_characterization
    {current previous : Frame} (w h blockX blockY bs r : ℤ)
    (hr : 0 ≤ r)
    (hcur : ∀ x y c, 0 ≤ current.pix x y c ∧ current.pix x y c ≤ 1)
    (hprev : ∀ x y c, 0 ≤ previous.pix x y c ∧ previous.pix x y c ≤ 1)
    (hbs : bs ≤ 2 ^ 30) :
    ∃ l1 l2,
      scanCandidates r =
        l1 ++ computeBlockMotion current previous w h blockX blockY bs r :: l2 ∧
      (∀ c ∈ scanCandidates r,
        sadAt current previous w h (blockX * bs) (blockY * bs) bs
            (computeBlockMotion current previous w h blockX blockY bs r).1
            (computeBlockMotion current previous w h blockX blockY bs r).2 ≤
          sadAt current previous w h (blockX * bs) (blockY * bs) bs c.1 c.2) ∧
      ∀ c ∈ l1,
        sadAt current previous w h (blockX * bs) (blockY * bs) bs
            (computeBlockMotion current previous w h blockX blockY bs r).1
            (computeBlockMotion current previous w h blockX blockY bs r).2 <
          sadAt current previous w h (blockX * bs) (blockY * bs) bs c.1 c.2 := by
  classical
  set f : ℤ × ℤ → ℚ := fun c =>
    sadAt current previous w h (blockX * bs) (blockY * bs) bs c.1 c.2 with hf
  set res : (ℤ × ℤ) × ℚ := bestScan f (scanCandidates r) ((0, 0), 10 ^ 30) with hresdef
  have hcomp : computeBlockMotion current previous w h blockX blockY bs r = res.1 := rfl
  obtain ⟨h1, h2, h3⟩ :=
    bestScan_spec f (scanCandidates r) (0, 0) (10 ^ 30) res.1 res.2 (by rw [hresdef])
  have h0r : -r ∈ searchOffsets r := by
    have := searchOffsets_mem hr 0 (by exact_mod_cast hr)
    simpa using this
  have hmem : ((-r, -r) : ℤ × ℤ) ∈ scanCandidates r := scanCandidates_mem h0r h0r
  have hbsn : ((bs.toNat : ℚ)) ≤ ((2 : ℚ) ^ 30) := by
    have h1n : bs.toNat ≤ (2 ^ 30 : ℤ).toNat := Int.toNat_le_toNat hbs
    have h2n : (2 ^ 30 : ℤ).toNat = 2 ^ 30 := by decide
    rw [h2n] at h1n
    exact_mod_cast h1n
  have hfsmall : f (-r, -r) < 10 ^ 30 := by
    have hle := sadAt_le hcur hprev w h (blockX * bs) (blockY * bs) bs (-r) (-r)
    have h0 : (0 : ℚ) ≤ (bs.toNat : ℚ) := by positivity
    have : (bs.toNat : ℚ) * (bs.toNat : ℚ) ≤ (2 : ℚ) ^ 30 * (2 : ℚ) ^ 30 := by nlinarith
    calc f (-r, -r) ≤ (bs.toNat : ℚ) * (bs.toNat : ℚ) := hle
      _ ≤ (2 : ℚ) ^ 30 * (2 : ℚ) ^ 30 := this
      _ < 10 ^ 30 := by norm_num
  rcases h3 with h3 | ⟨l1, l2, hl, hs, _, hall⟩
  · exfalso
    have hs0 : res.2 = 10 ^ 30 := congrArg Prod.snd h3
    have := h2 (-r, -r) hmem
    rw [hs0] at this
    exact absurd (lt_of_le_of_lt this hfsmall) (lt_irrefl _)
  · refine ⟨l1, l2, by rw [hcomp, hl], ?_, ?_⟩
    · intro c hc
      have := h2 c hc
      rw [hs] at this
      exact hcomp ▸ this
    · intro c hc
      have := hall c hc
      rw [hs] at this
      exact hcomp ▸ this

/-- C2: for every pair of equal-dimension frames with decoded pixel values in
`[0,1]`, every block, and every `searchRange ≥ 0`, `ComputeBlockMotion`
returns the first displacement, in the `dy`-outer / `dx`-inner ascending
step-2 scan, that achieves the minimum sum of absolute luminance differences
(out-of-frame shifted pixels being skipped), candidates replacing the running
best only under strict `<`. -/
theorem blockMatchSAD_first_minimum
    {current previous : Frame} (w h blockX blockY bs r : ℤ)
    (hr : 0 ≤ r)
    (hcur : ∀ x y c, 0 ≤ current.pix x y c ∧ current.pix x y c ≤ 1)
    (hprev : ∀ x y c, 0 ≤ previous.pix x y c ∧ previous.pix x y c ≤ 1)
    (hbs : bs ≤ 2 ^ 30) :
    ∃ l1 l2,
      scanCandidates r =
        l1 ++ computeBlockMotion current previous w h blockX blockY bs r :: l2 ∧
      (∀ c ∈ scanCandidates r,
        sadAt current previous w h (blockX * bs) (blockY * bs) bs
            (computeBlockMotion current previous w h blockX blockY bs r).1
            (computeBlockMotion current previous w h blockX blockY bs r).2 ≤
          sadAt current previous w h (blockX * bs) (blockY * bs) bs c.1 c.2) ∧
      ∀ c ∈ l1,
        sadAt current previous w h (blockX * bs) (blockY * bs) bs
            (computeBlockMotion current previous w h blockX blockY bs r).1
            (computeBlockMotion current previous w h blockX blockY bs r).2 <
          sadAt current previous w h (blockX * bs) (blockY * bs) bs c.1 c.2 :=
  computeBlockMotion_characterization w h blockX blockY bs r hr hcur hprev hbs

/-- C10: every displacement returned by `ComputeBlockMotion` lies in
`[-searchRange, searchRange]` on each axis and each component is congruent to
`searchRange` modulo 2; in particular `(0,0)` can be returned only when
`searchRange` is even. -/
theorem blockMatchSAD_range_and_parity
    {current previous : Frame} (w h blockX blockY bs r : ℤ)
    (hr : 0 ≤ r)
    (hcur : ∀ x y c, 0 ≤ current.pix x y c ∧ current.pix x y c ≤ 1)
    (hprev : ∀ x y c, 0 ≤ previous.pix x y c ∧ previous.pix x y c ≤ 1)
    (hbs : bs ≤ 2 ^ 30) :
    -r ≤ (computeBlockMotion current previous w h blockX blockY bs r).1 ∧
    (computeBlockMotion current previous w h blockX blockY bs r).1 ≤ r ∧
    (computeBlockMotion current previous w h blockX blockY bs r).1 % 2 = r % 2 ∧
    -r ≤ (computeBlockMotion current previous w h blockX blockY bs r).2 ∧
    (computeBlockMotion current previous w h blockX blockY bs r).2 ≤ r ∧
    (computeBlockMotion current previous w h blockX blockY bs r).2 % 2 = r % 2 ∧
    (computeBlockMotion current previous w h blockX blockY bs r = (0, 0) →
      r % 2 = 0) := by
  obtain ⟨l1, l2, hl, -, -⟩ :=
    computeBlockMotion_characterization w h blockX blockY bs r hr hcur hprev hbs
  have hmem : computeBlockMotion current previous w h blockX blockY bs r ∈
      scanCandidates r := by
    rw [hl]
    exact List.mem_append.mpr (Or.inr (List.mem_cons_self _ _))
  obtain ⟨hx, hy⟩ := mem_scanCandidates hmem
  obtain ⟨kx, hkx, hdx⟩ := mem_searchOffsets hx
  obtain ⟨ky, hky, hdy⟩ := mem_searchOffsets hy
  refine ⟨by omega, by omega, by omega, by omega, by omega, by omega, ?_⟩
  intro h00
  have h1 : (computeBlockMotion current previous w h blockX blockY bs r).1 = 0 := by
    rw [h00]
  omega

/-- C7 (amended): on two identical frames with an even `searchRange ≥ 0`, the
returned displacement attains SAD `0` (the global minimum); it is the first
zero-SAD candidate in scan order, which need not be `(0,0)`. -/
theorem blockMatchSAD_identical_min_sad_zero
    (F : Frame) (w h blockX blockY bs r : ℤ) (hr : 0 ≤ r) (heven : r % 2 = 0) :
    sadAt F F w h (blockX * bs) (blockY * bs) bs
      (computeBlockMotion F F w h blockX blockY bs r).1
      (computeBlockMotion F F w h blockX blockY bs r).2 = 0 := by
  classical
  set f : ℤ × ℤ → ℚ := fun c =>
    sadAt F F w h (blockX * bs) (blockY * bs) bs c.1 c.2 with hf
  set res : (ℤ × ℤ) × ℚ := bestScan f (scanCandidates r) ((0, 0), 10 ^ 30) with hresdef
  have hcomp : computeBlockMotion F F w h blockX blockY bs r = res.1 := rfl
  obtain ⟨h1, h2, h3⟩ :=
    bestScan_spec f (scanCandidates r) (0, 0) (10 ^ 30) res.1 res.2 (by rw [hresdef])
  have h0mem : ((0, 0) : ℤ × ℤ) ∈ scanCandidates r := by
    have hk : (((r / 2).toNat : ℕ) : ℤ) ≤ r := by omega
    have hoff := searchOffsets_mem hr (r / 2).toNat hk
    have hval : -r + 2 * (((r / 2).toNat : ℕ) : ℤ) = 0 := by omega
    rw [hval] at hoff
    exact scanCandidates_mem hoff hoff
  have hzero : f (0, 0) = 0 := sadAt_self_zero F w h (blockX * bs) (blockY * bs) bs
  have hle0 : res.2 ≤ 0 := by
    have := h2 (0, 0) h0mem
    rw [hzero] at this
    exact this
  rcases h3 with h3 | ⟨l1, l2, hl, hs, _, _⟩
  · exfalso
    have hs0 : res.2 = 10 ^ 30 := congrArg Prod.snd h3
    rw [hs0] at hle0
    norm_num at hle0
  · rw [hcomp]
    show f res.1 = 0
    rw [← hs]
    have hpos : 0 ≤ f res.1 :=
      sadAt_nonneg F F w h (blockX * bs) (blockY * bs) bs res.1.1 res.1.2
    rw [← hs] at hpos
    exact le_antisymm hle0 hpos

/-- A 2×2 frame whose pixels are all zero (a constant frame). -/
def zeroFrame2 : Frame := ⟨2, 2, fun _ _ _ => 0⟩

set_option maxRecDepth 100000 in
set_option maxHeartbeats 2000000 in
unseal Rat.add Rat.sub Rat.mul Rat.inv in
/-- C7 counterexample: on two identical (constant) 2×2 frames with the
minimal UI search range 4, the very first scanned candidate `(-4,-4)` shifts
every compared pixel out of frame, so its SAD is the empty sum `0`; the
strict-`<` tie-break then never lets `(0,0)` replace it, and the estimator
returns `(-4,-4)`, not the zero vector. -/
theorem blockMatchSAD_identical_not_zero_cex :
    computeBlockMotion zeroFrame2 zeroFrame2 2 2 0 0 2 4 = (-4, -4) ∧
    computeBlockMotion zeroFrame2 zeroFrame2 2 2 0 0 2 4 ≠ (0, 0) := by
  constructor <;> decide

/-- Witness for the amended C7 at the concrete constant 2×2 frame. -/
theorem blockMatchSAD_identical_min_sad_zero_wit :
    (0 : ℤ) ≤ 4 ∧ (4 : ℤ) % 2 = 0 ∧
    sadAt zeroFrame2 zeroFrame2 2 2 (0 * 2) (0 * 2) 2
      (computeBlockMotion zeroFrame2 zeroFrame2 2 2 0 0 2 4).1
      (computeBlockMotion zeroFrame2 zeroFrame2 2 2 0 0 2 4).2 = 0 :=
  ⟨by norm_num, by norm_num,
    blockMatchSAD_identical_min_sad_zero zeroFrame2 2 2 0 0 2 4 (by norm_num)
      (by norm_num)⟩

/-- Witness for C2 at a concrete input (constant 2×2 frames, search range 0,
whose only candidate is `(0,0)`). -/
theorem blockMatchSAD_first_minimum_wit :
    ∃ l1 l2,
      scanCandidates 0 =
        l1 ++ computeBlockMotion zeroFrame2 zeroFrame2 2 2 0 0 2 0 :: l2 ∧
      (∀ c ∈ scanCandidates 0,
        sadAt zeroFrame2 zeroFrame2 2 2 (0 * 2) (0 * 2) 2
            (computeBlockMotion zeroFrame2 zeroFrame2 2 2 0 0 2 0).1
            (computeBlockMotion zeroFrame2 zeroFrame2 2 2 0 0 2 0).2 ≤
          sadAt zeroFrame2 zeroFrame2 2 2 (0 * 2) (0 * 2) 2 c.1 c.2) ∧
      ∀ c ∈ l1,
        sadAt zeroFrame2 zeroFrame2 2 2 (0 * 2) (0 * 2) 2
            (computeBlockMotion zeroFrame2 zeroFrame2 2 2 0 0 2 0).1
            (computeBlockMotion zeroFrame2 zeroFrame2 2 2 0 0 2 0).2 <
          sadAt zeroFrame2 zeroFrame2 2 2 (0 * 2) (0 * 2) 2 c.1 c.2 :=
  blockMatchSAD_first_minimum 2 2 0 0 2 0 (by norm_num)
    (fun x y c => ⟨le_refl 0, by norm_num [zeroFrame2]⟩)
    (fun x y c => ⟨le_refl 0, by norm_num [zeroFrame2]⟩) (by norm_num)

/-- Witness for C10 at the concrete constant 2×2 frames with search range 4. -/
theorem blockMatchSAD_range_and_parity_wit :
    -(4 : ℤ) ≤ (computeBlockMotion zeroFrame2 zeroFrame2 2 2 0 0 2 4).1 ∧
    (computeBlockMotion zeroFrame2 zeroFrame2 2 2 0 0 2 4).1 ≤ 4 ∧
    (computeBlockMotion zeroFrame2 zeroFrame2 2 2 0 0 2 4).1 % 2 = (4 : ℤ) % 2 ∧
    -(4 : ℤ) ≤ (computeBlockMotion zeroFrame2 zeroFrame2 2 2 0 0 2 4).2 ∧
    (computeBlockMotion zeroFrame2 zeroFrame2 2 2 0 0 2 4).2 ≤ 4 ∧
    (computeBlockMotion zeroFrame2 zeroFrame2 2 2 0 0 2 4).2 % 2 = (4 : ℤ) % 2 ∧
    (computeBlockMotion zeroFrame2 zeroFrame2 2 2 0 0 2 4 = (0, 0) →
      (4 : ℤ) % 2 = 0) :=
  blockMatchSAD_range_and_parity 2 2 0 0 2 4 (by norm_num)
    (fun x y c => ⟨le_refl 0, by norm_num [zeroFrame2]⟩)
    (fun x y c => ⟨le_refl 0, by norm_num [zeroFrame2]⟩) (by norm_num)

/-- A 16×16 frame with a single bright pixel at `(8, 8)` (all four channels
`1`, the rest `0`). -/
def brightDotPrev : Frame := ⟨16, 16, fun x y _ => if x = 8 ∧ y = 8 then 1 else 0⟩

/-- The same frame shifted 4 pixels to the right, clamping at the edges: the
bright pixel moves to `(12, 8)`. -/
def brightDotCurr : Frame :=
  ⟨16, 16, fun x y c => brightDotPrev.pix (Clamp (x - 4) 0 15) y c⟩

set_option maxRecDepth 100000 in
set_option maxHeartbeats 8000000 in
unseal Rat.add Rat.sub Rat.mul Rat.inv in
/-- C8: a concrete 16×16, single-block, two-frame input in which frame 2 is
frame 1 shifted by `(+4, 0)` (clamped at the edges) yields the BlockMatchSAD
displacement `(-4, 0)` — the returned vector points from the block in `curr`
back to its source in `prev`, fixing the sign convention. -/
theorem blockMatchSAD_sign_convention :
    computeBlockMotion brightDotCurr brightDotPrev 16 16 0 0 16 4 = (-4, 0) ∨
    computeBlockMotion brightDotCurr brightDotPrev 16 16 0 0 16 4 = (4, 0) :=
  Or.inl (by decide)

/-! ### GradientFlow (Lucas-Kanade) estimator, MoshBrosh.cpp lines 62-116 -/

/-- The helper `GetGray` (MoshBrosh.cpp): clamps the coordinate into the frame and
returns `0.299*R + 0.587*G + 0.114*B` of the BGRA pixel (`px[2]` is red,
`px[1]` green, `px[0]` blue). -/
def getGray (F : Frame) (w h x y : ℤ) : ℚ :=
  let xc := Clamp x 0 (w - 1)
  let yc := Clamp y 0 (h - 1)
  (299/1000) * F.pix xc yc 2 + (587/1000) * F.pix xc yc 1 + (114/1000) * F.pix xc yc 0

/-- The five structure-tensor / right-hand-side accumulators of
`ComputeBlockFlow`. -/
structure FlowSums where
  ixix : ℚ
  iyiy : ℚ
  ixiy : ℚ
  ixit : ℚ
  iyit : ℚ

/-- The double loop of `ComputeBlockFlow` (MoshBrosh.cpp lines 86-101):
central-difference gradients of `prev`, temporal difference `curr - prev`,
accumulated over the block `[x1, min(x1+bs,w)) × [y1, min(y1+bs,h))`. -/
def flowSums (prevF currF : Frame) (w h x1 y1 bs : ℤ) : FlowSums :=
  let y2 := if y1 + bs < h then y1 + bs else h
  let x2 := if x1 + bs < w then x1 + bs else w
  (intRange (y2 - y1)).foldl (fun S py =>
    let y := y1 + py
    (intRange (x2 - x1)).foldl (fun S2 px =>
      let x := x1 + px
      let ix := (getGray prevF w h (x + 1) y - getGray prevF w h (x - 1) y) * (1/2)
      let iy := (getGray prevF w h x (y + 1) - getGray prevF w h x (y - 1)) * (1/2)
      let it := getGray currF w h x y - getGray prevF w h x y
      ⟨S2.ixix + ix * ix, S2.iyiy + iy * iy, S2.ixiy + ix * iy,
        S2.ixit + ix * it, S2.iyit + iy * it⟩) S) ⟨0, 0, 0, 0, 0⟩

/-- The structure-tensor determinant of `ComputeBlockFlow`. -/
def flowDet (prevF currF : Frame) (w h x1 y1 bs : ℤ) : ℚ :=
  let S := flowSums prevF currF w h x1 y1 bs
  S.ixix * S.iyiy - S.ixiy * S.ixiy

/-- The closed-form solution `u` of the 2×2 system in `ComputeBlockFlow`. -/
def flowU (prevF currF : Frame) (w h x1 y1 bs : ℤ) : ℚ :=
  let S := flowSums prevF currF w h x1 y1 bs
  (-S.ixit * S.iyiy + S.iyit * S.ixiy) / flowDet prevF currF w h x1 y1 bs

/-- The closed-form solution `v` of the 2×2 system in `ComputeBlockFlow`. -/
def flowV (prevF currF : Frame) (w h x1 y1 bs : ℤ) : ℚ :=
  let S := flowSums prevF currF w h x1 y1 bs
  (-S.iyit * S.ixix + S.ixit * S.ixiy) / flowDet prevF currF w h x1 y1 bs

/-- C `round` (round half away from zero), on the rational embedding. -/
def cRound (q : ℚ) : ℤ := if q < 0 then -(⌊-q + 1/2⌋) else ⌊q + 1/2⌋

/-- The estimator `ComputeBlockFlow` (MoshBrosh.cpp lines 71-116): returns `(0,0)` when the
structure-tensor determinant is below `1e-6` in absolute value, otherwise the
closed-form `(u, v)` rounded to nearest and clamped to `[-32, 32]` per axis.
The C code stores the result in `float` outputs; the values are integers, so
the embedding returns them as `ℤ` directly. -/
def computeBlockFlow (prevF currF : Frame) (w h x1 y1 bs : ℤ) : ℤ × ℤ :=
  if ratAbs (flowDet prevF currF w h x1 y1 bs) < 1/1000000 then (0, 0)
  else
    (Clamp (cRound (flowU prevF currF w h x1 y1 bs)) (-32) 32,
     Clamp (cRound (flowV prevF currF w h x1 y1 bs)) (-32) 32)

/-- C5: `ComputeBlockFlow` returns `(0,0)` whenever `|det| < 1e-6`; otherwise
it returns the closed-form solution rounded to nearest and clamped per axis
to `[-32, 32]`; in all cases both output components lie in `[-32, 32]`. -/
theorem gradientFlow_spec (prevF currF : Frame) (w h x1 y1 bs : ℤ) :
    (ratAbs (flowDet prevF currF w h x1 y1 bs) < 1/1000000 →
      computeBlockFlow prevF currF w h x1 y1 bs = (0, 0)) ∧
    (¬ ratAbs (flowDet prevF currF w h x1 y1 bs) < 1/1000000 →
      computeBlockFlow prevF currF w h x1 y1 bs =
        (Clamp (cRound (flowU prevF currF w h x1 y1 bs)) (-32) 32,
         Clamp (cRound (flowV prevF currF w h x1 y1 bs)) (-32) 32)) ∧
    -32 ≤ (computeBlockFlow prevF currF w h x1 y1 bs).1 ∧
    (computeBlockFlow prevF currF w h x1 y1 bs).1 ≤ 32 ∧
    -32 ≤ (computeBlockFlow prevF currF w h x1 y1 bs).2 ∧
    (computeBlockFlow prevF currF w h x1 y1 bs).2 ≤ 32 := by
  unfold computeBlockFlow
  by_cases hdet : ratAbs (flowDet prevF currF w h x1 y1 bs) < 1/1000000
  · rw [if_pos hdet]
    refine ⟨fun _ => rfl, fun hc => absurd hdet hc, by norm_num⟩
  · rw [if_neg hdet]
    refine ⟨fun hc => absurd hc hdet, fun _ => rfl, ?_, ?_, ?_, ?_⟩
    · exact le_max_left _ _
    · exact max_le (by norm_num) (min_le_right _ _)
    · exact le_max_left _ _
    · exact max_le (by norm_num) (min_le_right _ _)

/-- A 1×1 frame whose single pixel has all channels `1`. -/
def oneFrame1 : Frame := ⟨1, 1, fun _ _ _ => 1⟩

unseal Rat.add Rat.sub Rat.mul Rat.inv in
/-- Witness for C5: on a constant 1×1 frame pair all gradients vanish, the
determinant is `0 < 1e-6`, and the degenerate branch yields `(0, 0)`. -/
theorem gradientFlow_spec_wit :
    computeBlockFlow oneFrame1 oneFrame1 1 1 0 0 1 = (0, 0) :=
  (gradientFlow_spec oneFrame1 oneFrame1 1 1 0 0 1).1 (by decide)

/-! ### Accumulator warp and the precompute fold, MoshBrosh.cpp 119-168, 296-348 -/

/-- The Accumulator step `WarpAccumulated` (MoshBrosh.cpp lines 119-168): for each
`blockSize`-aligned block, the output receives at the original position of
the block the pixels of the previous accumulated image at the position of the
block offset by the GradientFlow displacement of that block, with the source
origin clamped so the whole block rectangle stays inside the frame (block-level
clamp).  The imperative loop writes each in-bounds pixel `(x, y)` exactly
once, from the block with origin `(bs*(x/bs), bs*(y/bs))`; the embedding
computes that block origin directly from the coordinate.  Pixels outside
`[0,w) × [0,h)` keep the zero initialisation of the temp buffer. -/
def warpAccumulated (acc prevF currF : Frame) (w h bs : ℤ) : Frame :=
  ⟨w, h, fun x y c =>
    if 0 ≤ x ∧ x < w ∧ 0 ≤ y ∧ y < h ∧ 0 < bs then
      let x1 := bs * (x / bs)
      let y1 := bs * (y / bs)
      let x2 := if x1 + bs < w then x1 + bs else w
      let y2 := if y1 + bs < h then y1 + bs else h
      let mv := computeBlockFlow prevF currF w h x1 y1 bs
      let sx1 := Clamp (x1 + mv.1) 0 (w - (x2 - x1))
      let sy1 := Clamp (y1 + mv.2) 0 (h - (y2 - y1))
      acc.pix (sx1 + (x - x1)) (sy1 + (y - y1)) c
    else 0⟩

/-- The enum `AnalysisState` (plugin header). -/
inductive AnalysisState
  | NotStarted
  | InProgress
  | Complete
  | Invalid
deriving DecidableEq

/-- The key map `WarpedKey` (MoshBrosh.cpp lines 296-299): warped results are stored at
negative keys `WARPED_KEY_BASE - frameNum` to avoid collision with raw input
frame numbers. -/
def warpedKey (frameNum : ℤ) : ℤ := -10000 - frameNum

/-- The struct `MoshSequenceData` (plugin header), restricted to the fields the render
path reads or writes, plus a ghost counter `precomputeRuns` counting the
calls of `PrecomputeWarpedFrames` (the call counter that the precompute
test in the spec asks for).  `cache` models the `accumulatedFrames` map: raw inputs at
their frame number, warped results at `warpedKey` numbers. -/
structure SeqData where
  analysisState : AnalysisState
  analyzedMoshFrame : ℤ
  analyzedDuration : ℤ
  analyzedBlockSize : ℤ
  analyzedSearchRange : ℤ
  cache : ℤ → Option Frame
  referenceFrame : Option Frame
  precomputeRuns : ℕ

/-- A default-constructed `AccumulatedFrame`, as `operator[]` would create;
never consulted on the paths the claims take, where presence is assumed. -/
def emptyFrame (w h : ℤ) : Frame := ⟨w, h, fun _ _ _ => 0⟩

/-- The loop of `PrecomputeWarpedFrames` (MoshBrosh.cpp lines 320-343),
recursing on the remaining iteration count: each iteration warps the running
accumulated image using the cached inputs at `f-1` and `f`, then stores a
copy of the result at `warpedKey f`. -/
def precomputeLoop (w h bs : ℤ) :
    (ℤ → Option Frame) → Frame → ℤ → ℕ → (ℤ → Option Frame) × Frame
  | store, acc, _, 0 => (store, acc)
  | store, acc, f, n + 1 =>
      let prevInput := (store (f - 1)).getD (emptyFrame w h)
      let currInput := (store f).getD (emptyFrame w h)
      let acc2 := warpAccumulated acc prevInput currInput w h bs
      precomputeLoop w h bs
        (fun k => if k = warpedKey f then some acc2 else store k) acc2 (f + 1) n

/-- The bulk precompute `PrecomputeWarpedFrames` (MoshBrosh.cpp lines 302-348): seeds the
accumulated image with the reference frame, folds the warp across
`[moshFrame, moshFrame + duration)` storing the result of each step, then marks
the analysis `Complete`; `precomputeRuns` is the ghost call counter. -/
def precomputeWarpedFrames (sd : SeqData) (moshFrame duration blockSize w h : ℤ) :
    SeqData :=
  let r := precomputeLoop w h blockSize sd.cache
    (sd.referenceFrame.getD (emptyFrame w h)) moshFrame duration.toNat
  { sd with
    cache := r.1
    analysisState := AnalysisState.Complete
    precomputeRuns := sd.precomputeRuns + 1 }

/-- The accumulation fold of the spec, written exactly as the spec states it:
`accumulated[windowStart-1] = referenceFrame` and
`accumulated[t] = step(accumulated[t-1], estimate(raw[t-1], raw[t]))`,
indexed by the offset `n` so that `accumulatedSpec ref raw ws w h bs n`
is `accumulated[ws - 1 + n]`. -/
def accumulatedSpec (ref : Frame) (raw : ℤ → Frame) (ws w h bs : ℤ) : ℕ → Frame
  | 0 => ref
  | n + 1 =>
      warpAccumulated (accumulatedSpec ref raw ws w h bs n)
        (raw (ws + n - 1)) (raw (ws + n)) w h bs

theorem warpedKey_inj {a b : ℤ} (h : warpedKey a = warpedKey b) : a = b := by
  unfold warpedKey at h
  omega

theorem precomputeLoop_preserves (w h bs : ℤ) :
    ∀ (n : ℕ) (store : ℤ → Option Frame) (acc : Frame) (f k : ℤ),
      (∀ i : ℕ, i < n → k ≠ warpedKey (f + i)) →
      (precomputeLoop w h bs store acc f n).1 k = store k := by
  intro n
  induction n with
  | zero => intro store acc f k hk; rfl
  | succ m ih =>
      intro store acc f k hk
      rw [precomputeLoop]
      rw [ih _ _ _ _ ?_]
      · have hne : k ≠ warpedKey f := by
          have := hk 0 (Nat.succ_pos m)
          simpa using this
        rw [if_neg hne]
      · intro i hi
        have := hk (i + 1) (by omega)
        have harith : f + ((i : ℤ) + 1) = f + 1 + (i : ℤ) := by ring
        rw [Nat.cast_add, Nat.cast_one, harith] at this
        exact this

theorem accumulatedSpec_shift (raw : ℤ → Frame) (w h bs : ℤ) :
    ∀ (m : ℕ) (ref : Frame) (ws : ℤ),
      accumulatedSpec ref raw ws w h bs (m + 1) =
        accumulatedSpec (warpAccumulated ref (raw (ws - 1)) (raw ws) w h bs)
          raw (ws + 1) w h bs m := by
  intro m
  induction m with
  | zero =>
      intro ref ws
      simp only [accumulatedSpec]
      norm_num
  | succ k ih =>
      intro ref ws
      show warpAccumulated (accumulatedSpec ref raw ws w h bs (k + 1))
          (raw (ws + ((k : ℤ) + 1) - 1)) (raw (ws + ((k : ℤ) + 1))) w h bs = _
      rw [ih ref ws]
      show _ = warpAccumulated
          (accumulatedSpec (warpAccumulated ref (raw (ws - 1)) (raw ws) w h bs)
            raw (ws + 1) w h bs k)
          (raw (ws + 1 + (k : ℤ) - 1)) (raw (ws + 1 + (k : ℤ))) w h bs
      have h1 : ws + ((k : ℤ) + 1) - 1 = ws + 1 + (k : ℤ) - 1 := by ring
      have h2 : ws + ((k : ℤ) + 1) = ws + 1 + (k : ℤ) := by ring
      rw [h1, h2]

theorem precomputeLoop_stores (w h bs : ℤ) :
    ∀ (n : ℕ) (store : ℤ → Option Frame) (acc : Frame) (f : ℤ) (raw : ℤ → Frame),
      0 ≤ f →
      (∀ k : ℤ, f - 1 ≤ k → k < f + n → store k = some (raw k)) →
      ∀ i : ℕ, i < n →
        (precomputeLoop w h bs store acc f n).1 (warpedKey (f + i)) =
          some (accumulatedSpec acc raw f w h bs (i + 1)) := by
  intro n
  induction n with
  | zero => intro store acc f raw hf hstore i hi; omega
  | succ m ih =>
      intro store acc f raw hf hstore i hi
      have hprev : store (f - 1) = some (raw (f - 1)) := by
        refine hstore (f - 1) (le_refl _) (by omega)
      have hcurr : store f = some (raw f) := by
        refine hstore f (by omega) (by omega)
      rw [precomputeLoop]
      rw [hprev, hcurr]
      simp only [Option.getD_some]
      have hacc2 : warpAccumulated acc (raw (f - 1)) (raw f) w h bs =
          accumulatedSpec acc raw f w h bs 1 := by
        show _ = warpAccumulated (accumulatedSpec acc raw f w h bs 0)
          (raw (f + (0 : ℕ) - 1)) (raw (f + (0 : ℕ))) w h bs
        rw [accumulatedSpec]
        norm_num
      cases i with
      | zero =>
          rw [precomputeLoop_preserves w h bs m _ _ _ _ ?_]
          · have : f + ((0 : ℕ) : ℤ) = f := by norm_num
            rw [this, if_pos rfl, hacc2]
          · intro j hj
            intro hcontra
            have := warpedKey_inj hcontra
            omega
      | succ j =>
          have hstore2 : ∀ k : ℤ, f + 1 - 1 ≤ k → k < f + 1 + m →
              (fun k => if k = warpedKey f
                then some (warpAccumulated acc
                  (raw (f - 1)) (raw f) w h bs) else store k) k = some (raw k) := by
            intro k hk1 hk2
            have hkge : 0 ≤ k := by omega
            have hne : k ≠ warpedKey f := by
              unfold warpedKey
              omega
            simp only [if_neg hne]
            refine hstore k (by omega) (by push_cast at hk2 ⊢; omega)
          have := ih _ (warpAccumulated acc (raw (f - 1)) (raw f) w h bs)
            (f + 1) raw (by omega) hstore2 j (by omega)
          have hkey : f + 1 + (j : ℤ) = f + ((j : ℕ) + 1 : ℕ) := by push_cast; ring
          rw [hkey] at this
          rw [this, accumulatedSpec_shift raw w h bs (j + 1) acc f]

/-- C1: for every frame offset `i < duration`, the warped result that
`PrecomputeWarpedFrames` stores for frame `moshFrame + i` equals the strict
left-to-right fold of the Accumulator step over the per-frame GradientFlow
displacement fields, seeded with the reference frame. -/
theorem precompute_is_left_fold
    (sd : SeqData) (moshFrame duration blockSize w h : ℤ) (ref : Frame)
    (raw : ℤ → Frame)
    (hws : 0 ≤ moshFrame)
    (href : sd.referenceFrame = some ref)
    (hraw : ∀ k : ℤ, moshFrame - 1 ≤ k → k < moshFrame + duration →
      sd.cache k = some (raw k))
    (i : ℕ) (hi : (i : ℤ) < duration) :
    (precomputeWarpedFrames sd moshFrame duration blockSize w h).cache
        (warpedKey (moshFrame + i)) =
      some (accumulatedSpec ref raw moshFrame w h blockSize (i + 1)) := by
  unfold precomputeWarpedFrames
  dsimp only
  rw [href]
  simp only [Option.getD_some]
  refine precomputeLoop_stores w h blockSize duration.toNat sd.cache ref moshFrame raw
    hws ?_ i (by omega)
  intro k hk1 hk2
  refine hraw k hk1 (by omega)

/-- Concrete frames for the C1 witness. -/
def rawFrameA : Frame := ⟨1, 1, fun _ _ _ => 1/4⟩

/-- Concrete frames for the C1 witness. -/
def rawFrameB : Frame := ⟨1, 1, fun _ _ _ => 1/2⟩

/-- Concrete reference frame for the C1 witness. -/
def refFrameC : Frame := ⟨1, 1, fun _ _ _ => 3/4⟩

/-- A concrete cache holding raw frames 0 and 1 for the C1 witness. -/
def rawStoreC : ℤ → Frame := fun k => if k = 0 then rawFrameA else rawFrameB

/-- A concrete sequence-data value, ready for precompute, for the C1 witness. -/
def seqDataC1 : SeqData :=
  ⟨AnalysisState.NotStarted, 1, 1, 16, 16,
    fun k => if k = 0 then some rawFrameA else if k = 1 then some rawFrameB else none,
    some refFrameC, 0⟩

/-- Witness for C1 at a concrete one-frame window over 1×1 frames. -/
theorem precompute_is_left_fold_wit :
    (precomputeWarpedFrames seqDataC1 1 1 16 1 1).cache (warpedKey (1 + (0 : ℕ))) =
      some (accumulatedSpec refFrameC rawStoreC 1 1 1 16 (0 + 1)) :=
  precompute_is_left_fold seqDataC1 1 1 16 1 1 refFrameC rawStoreC (by norm_num) rfl
    (by
      intro k h1 h2
      have : k = 0 ∨ k = 1 := by omega
      rcases this with rfl | rfl <;> rfl)
    0 (by norm_num)

/-! ### The Render entry point and its cache state machine, MoshBrosh.cpp 350-522 -/

/-- The record `WindowParameters` (spec §3): the five per-render effect parameters read
by the plugin (`Mosh Frame`, `Duration`, `Block Size`, `Search Range`,
`Blend`, the latter already divided by 100). -/
structure WindowParameters where
  moshFrame : ℤ
  duration : ℤ
  blockSize : ℤ
  searchRange : ℤ
  blend : ℚ

/-- One channel of the per-pixel blend in `Render` and in pass 4 of the CLI:
`src*(1-blend) + warped*blend`. -/
def blendPixel (a b t : ℚ) : ℚ := a * (1 - t) + b * t

/-- The blended output frame built from the source frame and a stored warped
result (MoshBrosh.cpp lines 433-448, moshbrosh_cli.cpp lines 505-516). -/
def blendFrame (src acc : Frame) (t : ℚ) : Frame :=
  ⟨src.width, src.height, fun x y c => blendPixel (src.pix x y c) (acc.pix x y c) t⟩

/-- The cyan-tinted interim output of the collecting phase (MoshBrosh.cpp
lines 505-520): blue and green boosted by `0.2`, red halved, alpha kept
(BGRA channel order). -/
def cyanTint (src : Frame) : Frame :=
  ⟨src.width, src.height, fun x y c =>
    if c = 0 then src.pix x y 0 * 1 + 1/5
    else if c = 1 then src.pix x y 1 * 1 + 1/5
    else if c = 2 then src.pix x y 2 * (1/2)
    else src.pix x y c⟩

/-- The `hasAllInputs` check of `Render` (MoshBrosh.cpp lines 454-464): the
reference frame is valid and every raw input frame with index in
`[moshFrame-1, moshFrame+duration)` is in the cache. -/
def hasAllInputs (p : WindowParameters) (sd : SeqData) : Bool :=
  sd.referenceFrame.isSome &&
    (intRange (p.duration + 1)).all (fun i => (sd.cache (p.moshFrame - 1 + i)).isSome)

/-- The parameter-change reset of `Render` (MoshBrosh.cpp lines 379-389):
clears the frame map and the reference frame, records the new parameters and
returns to `NotStarted`.  `analyzedSearchRange` is not updated here, exactly
as in the source, whose check also never reads it. -/
def resetState (sd : SeqData) (p : WindowParameters) : SeqData :=
  { sd with
    analysisState := AnalysisState.NotStarted
    analyzedMoshFrame := p.moshFrame
    analyzedDuration := p.duration
    analyzedBlockSize := p.blockSize
    cache := fun _ => none
    referenceFrame := none }

/-- The parameter-delta check of `Render` (MoshBrosh.cpp lines 379-389):
only `moshFrame`, `duration` and `blockSize` are compared. -/
def ingestReset (p : WindowParameters) (sd : SeqData) : SeqData :=
  if p.moshFrame ≠ sd.analyzedMoshFrame ∨ p.duration ≠ sd.analyzedDuration ∨
      p.blockSize ≠ sd.analyzedBlockSize then resetState sd p else sd

/-- Insert-if-absent of the current input frame (MoshBrosh.cpp lines
391-397). -/
def ingestCache (currentFrame : ℤ) (src : Frame) (sd : SeqData) : SeqData :=
  if (sd.cache currentFrame).isSome then sd
  else { sd with
         cache := fun k => if k = currentFrame then some src else sd.cache k }

/-- Reference-frame capture at the first observation of `moshFrame - 1`
(MoshBrosh.cpp lines 399-404). -/
def ingestRef (p : WindowParameters) (currentFrame : ℤ) (src : Frame)
    (sd : SeqData) : SeqData :=
  if currentFrame = p.moshFrame - 1 ∧ sd.referenceFrame.isNone then
    { sd with referenceFrame := some src }
  else sd

/-- The ingest phase of `Render` (MoshBrosh.cpp lines 379-404): reset on a
parameter delta, cache the current input frame if absent, and capture the
reference frame at the first observation of frame `moshFrame - 1`. -/
def renderIngest (p : WindowParameters) (currentFrame : ℤ) (src : Frame)
    (sd0 : SeqData) : SeqData :=
  ingestRef p currentFrame src (ingestCache currentFrame src (ingestReset p sd0))

/-- The output phase of `Render` (MoshBrosh.cpp lines 406-521): passthrough
outside the window; otherwise serve the stored warped result blended with
the source; otherwise precompute once all inputs are present and the
analysis is not yet `Complete` and serve; otherwise emit the cyan tint. -/
def renderServe (p : WindowParameters) (currentFrame : ℤ) (src : Frame)
    (w h : ℤ) (sd3 : SeqData) : Frame × SeqData :=
  if currentFrame < p.moshFrame ∨ p.moshFrame + p.duration ≤ currentFrame then
    (src, sd3)
  else
    match sd3.cache (warpedKey currentFrame) with
    | some warped => (blendFrame src warped p.blend, sd3)
    | none =>
      if hasAllInputs p sd3 ∧ sd3.analysisState ≠ AnalysisState.Complete then
        match (precomputeWarpedFrames sd3 p.moshFrame p.duration p.blockSize
            w h).cache (warpedKey currentFrame) with
        | some warped => (blendFrame src warped p.blend,
            precomputeWarpedFrames sd3 p.moshFrame p.duration p.blockSize w h)
        | none => (cyanTint src,
            precomputeWarpedFrames sd3 p.moshFrame p.duration p.blockSize w h)
      else (cyanTint src, sd3)

/-- The entry point `Render` (MoshBrosh.cpp lines 350-522) for one frame request, returning
the output frame and the updated sequence data. -/
def renderStep (p : WindowParameters) (currentFrame : ℤ) (src : Frame)
    (w h : ℤ) (sd : SeqData) : Frame × SeqData :=
  renderServe p currentFrame src w h (renderIngest p currentFrame src sd)

/-- A sequence of render calls under one fixed parameter configuration;
requests are (frame number, decoded source frame) pairs. -/
def renderTrace (p : WindowParameters) (w h : ℤ) (reqs : List (ℤ × Frame))
    (sd : SeqData) : SeqData :=
  reqs.foldl (fun s r => (renderStep p r.1 r.2 w h s).2) sd

/-- The output-frame selection of pass 4 of the CLI (moshbrosh_cli.cpp lines
495-520): frames in the mosh range receive the warped result, blended with
the original when `blend < 1`; all other frames pass through unchanged. -/
def cliOutputPixels (framesL : ℤ → Frame) (warpedL : ℕ → Frame)
    (moshFrame duration : ℤ) (blendv : ℚ) (i : ℤ) : Frame :=
  if moshFrame ≤ i ∧ i < moshFrame + duration then
    if blendv < 1 then blendFrame (framesL i) (warpedL (i - moshFrame).toNat) blendv
    else warpedL (i - moshFrame).toNat
  else framesL i

/-- C6: blending with factor `0` reproduces the original frame exactly and
blending with factor `1` reproduces the warped frame exactly, per channel,
at every pixel. -/
theorem blend_endpoints (src warped : Frame) (x y : ℤ) (c : ℕ) :
    (blendFrame src warped 0).pix x y c = src.pix x y c ∧
    (blendFrame src warped 1).pix x y c = warped.pix x y c := by
  constructor
  · show blendPixel (src.pix x y c) (warped.pix x y c) 0 = src.pix x y c
    unfold blendPixel
    ring
  · show blendPixel (src.pix x y c) (warped.pix x y c) 1 = warped.pix x y c
    unfold blendPixel
    ring

/-- C9: a render request outside the mosh window returns the input frame
unchanged, regardless of the blend factor and of the cache state; pass 4 of
the CLI likewise writes the original frame outside the window. -/
theorem out_of_window_passthrough (p : WindowParameters) (currentFrame : ℤ)
    (src : Frame) (w h : ℤ) (sd : SeqData) (framesL : ℤ → Frame)
    (warpedL : ℕ → Frame)
    (hout : currentFrame < p.moshFrame ∨
      p.moshFrame + p.duration ≤ currentFrame) :
    (renderStep p currentFrame src w h sd).1 = src ∧
    cliOutputPixels framesL warpedL p.moshFrame p.duration p.blend currentFrame =
      framesL currentFrame := by
  constructor
  · unfold renderStep renderServe
    rw [if_pos hout]
  · unfold cliOutputPixels
    rw [if_neg (by omega)]

/-- Witness for C9 at a concrete out-of-window request. -/
theorem out_of_window_passthrough_wit :
    (renderStep ⟨10, 5, 16, 16, 1⟩ 3 rawFrameA 1 1 seqDataC1).1 = rawFrameA ∧
    cliOutputPixels (fun _ => rawFrameA) (fun _ => rawFrameB) 10 5 1 3 = rawFrameA :=
  out_of_window_passthrough ⟨10, 5, 16, 16, 1⟩ 3 rawFrameA 1 1 seqDataC1
    (fun _ => rawFrameA) (fun _ => rawFrameB) (by norm_num)

/-- C3 (amended): a render call observing a delta in `moshFrame`,
`duration`, or `blockSize` relative to the analysed configuration resets the
cache before anything can be served: it behaves exactly as on the reset
state, whose analysis state is `NotStarted` and whose frame map (raw inputs
and warped results alike) and reference frame are empty.  Deltas in
`searchRange` or `blend` alone do not invalidate (see the counterexample). -/
theorem param_change_resets (p : WindowParameters) (currentFrame : ℤ)
    (src : Frame) (w h : ℤ) (sd : SeqData)
    (hchanged : p.moshFrame ≠ sd.analyzedMoshFrame ∨
      p.duration ≠ sd.analyzedDuration ∨ p.blockSize ≠ sd.analyzedBlockSize) :
    renderStep p currentFrame src w h sd =
      renderStep p currentFrame src w h (resetState sd p) ∧
    (resetState sd p).analysisState = AnalysisState.NotStarted ∧
    (∀ k, (resetState sd p).cache k = none) ∧
    (resetState sd p).referenceFrame = none := by
  refine ⟨?_, rfl, fun k => rfl, rfl⟩
  have hsame : ¬(p.moshFrame ≠ (resetState sd p).analyzedMoshFrame ∨
      p.duration ≠ (resetState sd p).analyzedDuration ∨
      p.blockSize ≠ (resetState sd p).analyzedBlockSize) := by
    intro hcon
    rcases hcon with hc | hc | hc <;> exact hc rfl
  unfold renderStep renderIngest ingestReset
  rw [if_pos hchanged, if_neg hsame]

/-- The stored warped frame of the C3 counterexample (constant value 7). -/
def warpedFrameW : Frame := ⟨1, 1, fun _ _ _ => 7⟩

/-- A sequence-data value whose cached state was analysed under
`searchRange = 16` (recorded in `analyzedSearchRange`), holding a warped
result for frame 10. -/
def seqDataC3 : SeqData :=
  ⟨AnalysisState.Complete, 10, 5, 16, 16,
    fun k => if k = warpedKey 10 then some warpedFrameW else none, none, 1⟩

/-- Parameters identical to the analysed ones except `searchRange = 8`. -/
def paramsC3 : WindowParameters := ⟨10, 5, 16, 8, 1⟩

unseal Rat.add Rat.sub Rat.mul Rat.inv in
/-- C3 counterexample: a render call whose `searchRange` (8) differs from
the configuration the cache state was computed under (16, still recorded in
`analyzedSearchRange`) does NOT reset the cache: the state remains
`Complete`, no precompute re-runs, and the stored warped result computed
under the old configuration is served (the output pixel equals the stored
value 7 at blend 1). -/
theorem param_change_resets_cex :
    paramsC3.searchRange ≠ seqDataC3.analyzedSearchRange ∧
    (renderStep paramsC3 10 (emptyFrame 1 1) 1 1 seqDataC3).2.analysisState =
      AnalysisState.Complete ∧
    (renderStep paramsC3 10 (emptyFrame 1 1) 1 1 seqDataC3).2.precomputeRuns = 1 ∧
    (renderStep paramsC3 10 (emptyFrame 1 1) 1 1 seqDataC3).1.pix 0 0 0 = 7 := by
  refine ⟨by decide, by decide, by decide, by decide⟩

/-- Witness for the amended C3 at a concrete parameter delta
(`moshFrame` 11 against analysed 10). -/
theorem param_change_resets_wit :
    renderStep ⟨11, 5, 16, 16, 1⟩ 10 (emptyFrame 1 1) 1 1 seqDataC3 =
      renderStep ⟨11, 5, 16, 16, 1⟩ 10 (emptyFrame 1 1) 1 1
        (resetState seqDataC3 ⟨11, 5, 16, 16, 1⟩) ∧
    (resetState seqDataC3 ⟨11, 5, 16, 16, 1⟩).analysisState =
      AnalysisState.NotStarted ∧
    (∀ k, (resetState seqDataC3 ⟨11, 5, 16, 16, 1⟩).cache k = none) ∧
    (resetState seqDataC3 ⟨11, 5, 16, 16, 1⟩).referenceFrame = none :=
  param_change_resets ⟨11, 5, 16, 16, 1⟩ 10 (emptyFrame 1 1) 1 1 seqDataC3
    (Or.inl (by decide))

/-! ### C4 helper lemmas: the effect of one render call on the cache state -/

theorem ingestReset_meta (p : WindowParameters) (sd : SeqData) :
    (ingestReset p sd).analyzedMoshFrame = p.moshFrame ∧
    (ingestReset p sd).analyzedDuration = p.duration ∧
    (ingestReset p sd).analyzedBlockSize = p.blockSize ∧
    (ingestReset p sd).precomputeRuns = sd.precomputeRuns := by
  unfold ingestReset
  split
  · exact ⟨rfl, rfl, rfl, rfl⟩
  · next hn =>
      push_neg at hn
      exact ⟨hn.1.symm, hn.2.1.symm, hn.2.2.symm, rfl⟩

theorem ingestReset_of_matches (p : WindowParameters) (sd : SeqData)
    (h1 : sd.analyzedMoshFrame = p.moshFrame) (h2 : sd.analyzedDuration = p.duration)
    (h3 : sd.analyzedBlockSize = p.blockSize) : ingestReset p sd = sd := by
  unfold ingestReset
  rw [if_neg]
  intro hcon
  rcases hcon with hc | hc | hc
  · exact hc h1.symm
  · exact hc h2.symm
  · exact hc h3.symm

theorem ingestCache_meta (currentFrame : ℤ) (src : Frame) (sd : SeqData) :
    (ingestCache currentFrame src sd).analysisState = sd.analysisState ∧
    (ingestCache currentFrame src sd).analyzedMoshFrame = sd.analyzedMoshFrame ∧
    (ingestCache currentFrame src sd).analyzedDuration = sd.analyzedDuration ∧
    (ingestCache currentFrame src sd).analyzedBlockSize = sd.analyzedBlockSize ∧
    (ingestCache currentFrame src sd).precomputeRuns = sd.precomputeRuns ∧
    (ingestCache currentFrame src sd).referenceFrame = sd.referenceFrame := by
  unfold ingestCache
  split
  · exact ⟨rfl, rfl, rfl, rfl, rfl, rfl⟩
  · exact ⟨rfl, rfl, rfl, rfl, rfl, rfl⟩

theorem ingestCache_cache_ne (currentFrame : ℤ) (src : Frame) (sd : SeqData)
    (k : ℤ) (hk : k ≠ currentFrame) :
    (ingestCache currentFrame src sd).cache k = sd.cache k := by
  unfold ingestCache
  split
  · rfl
  · show (if k = currentFrame then some src else sd.cache k) = sd.cache k
    rw [if_neg hk]

theorem ingestRef_meta (p : WindowParameters) (currentFrame : ℤ) (src : Frame)
    (sd : SeqData) :
    (ingestRef p currentFrame src sd).analysisState = sd.analysisState ∧
    (ingestRef p currentFrame src sd).analyzedMoshFrame = sd.analyzedMoshFrame ∧
    (ingestRef p currentFrame src sd).analyzedDuration = sd.analyzedDuration ∧
    (ingestRef p currentFrame src sd).analyzedBlockSize = sd.analyzedBlockSize ∧
    (ingestRef p currentFrame src sd).precomputeRuns = sd.precomputeRuns ∧
    (ingestRef p currentFrame src sd).cache = sd.cache := by
  unfold ingestRef
  split
  · exact ⟨rfl, rfl, rfl, rfl, rfl, rfl⟩
  · exact ⟨rfl, rfl, rfl, rfl, rfl, rfl⟩

theorem renderIngest_meta (p : WindowParameters) (cf : ℤ) (src : Frame)
    (sd : SeqData) :
    (renderIngest p cf src sd).analyzedMoshFrame = p.moshFrame ∧
    (renderIngest p cf src sd).analyzedDuration = p.duration ∧
    (renderIngest p cf src sd).analyzedBlockSize = p.blockSize ∧
    (renderIngest p cf src sd).precomputeRuns = sd.precomputeRuns := by
  obtain ⟨r1, r2, r3, r4⟩ := ingestReset_meta p sd
  obtain ⟨-, c2, c3, c4, c5, -⟩ := ingestCache_meta cf src (ingestReset p sd)
  obtain ⟨-, f2, f3, f4, f5, -⟩ :=
    ingestRef_meta p cf src (ingestCache cf src (ingestReset p sd))
  unfold renderIngest
  exact ⟨f2.trans (c2.trans r1), f3.trans (c3.trans r2), f4.trans (c4.trans r3),
    f5.trans (c5.trans r4)⟩

theorem renderIngest_of_complete (p : WindowParameters) (cf : ℤ) (src : Frame)
    (sd : SeqData)
    (h1 : sd.analyzedMoshFrame = p.moshFrame) (h2 : sd.analyzedDuration = p.duration)
    (h3 : sd.analyzedBlockSize = p.blockSize)
    (hc : sd.analysisState = AnalysisState.Complete) :
    (renderIngest p cf src sd).analysisState = AnalysisState.Complete := by
  obtain ⟨cs, -, -, -, -, -⟩ := ingestCache_meta cf src (ingestReset p sd)
  obtain ⟨fs, -, -, -, -, -⟩ :=
    ingestRef_meta p cf src (ingestCache cf src (ingestReset p sd))
  unfold renderIngest
  rw [fs, cs, ingestReset_of_matches p sd h1 h2 h3, hc]

theorem precompute_meta (sd : SeqData) (mf d bsz w h : ℤ) :
    (precomputeWarpedFrames sd mf d bsz w h).precomputeRuns = sd.precomputeRuns + 1 ∧
    (precomputeWarpedFrames sd mf d bsz w h).analysisState = AnalysisState.Complete ∧
    (precomputeWarpedFrames sd mf d bsz w h).analyzedMoshFrame = sd.analyzedMoshFrame ∧
    (precomputeWarpedFrames sd mf d bsz w h).analyzedDuration = sd.analyzedDuration ∧
    (precomputeWarpedFrames sd mf d bsz w h).analyzedBlockSize = sd.analyzedBlockSize :=
  ⟨rfl, rfl, rfl, rfl, rfl⟩

theorem renderServe_state_cases (p : WindowParameters) (cf : ℤ) (src : Frame)
    (w h : ℤ) (sd : SeqData) :
    (renderServe p cf src w h sd).2 = sd ∨
    ((renderServe p cf src w h sd).2 =
        precomputeWarpedFrames sd p.moshFrame p.duration p.blockSize w h ∧
      hasAllInputs p sd = true ∧ sd.analysisState ≠ AnalysisState.Complete) := by
  unfold renderServe
  split
  · exact Or.inl rfl
  · split
    · exact Or.inl rfl
    · split
      · next hcond =>
          split
          · exact Or.inr ⟨rfl, hcond.1, hcond.2⟩
          · exact Or.inr ⟨rfl, hcond.1, hcond.2⟩
      · exact Or.inl rfl

theorem renderStep_runs_cases (p : WindowParameters) (cf : ℤ) (src : Frame)
    (w h : ℤ) (sd : SeqData) :
    (renderStep p cf src w h sd).2.precomputeRuns = sd.precomputeRuns ∨
    ((renderStep p cf src w h sd).2.precomputeRuns = sd.precomputeRuns + 1 ∧
      (renderStep p cf src w h sd).2.analysisState = AnalysisState.Complete ∧
      (renderStep p cf src w h sd).2.analyzedMoshFrame = p.moshFrame ∧
      (renderStep p cf src w h sd).2.analyzedDuration = p.duration ∧
      (renderStep p cf src w h sd).2.analyzedBlockSize = p.blockSize ∧
      hasAllInputs p (renderIngest p cf src sd) = true ∧
      (renderIngest p cf src sd).analysisState ≠ AnalysisState.Complete) := by
  obtain ⟨m1, m2, m3, m4⟩ := renderIngest_meta p cf src sd
  have hstep : (renderStep p cf src w h sd).2 =
      (renderServe p cf src w h (renderIngest p cf src sd)).2 := rfl
  rcases renderServe_state_cases p cf src w h (renderIngest p cf src sd) with
    hcase | ⟨heq, hall, hnc⟩
  · left
    rw [hstep, hcase, m4]
  · right
    obtain ⟨p1, p2, p3, p4, p5⟩ :=
      precompute_meta (renderIngest p cf src sd) p.moshFrame p.duration p.blockSize w h
    rw [hstep, heq]
    exact ⟨by rw [p1, m4], p2, by rw [p3, m1], by rw [p4, m2], by rw [p5, m3],
      hall, hnc⟩

theorem renderStep_complete_absorbing (p : WindowParameters) (cf : ℤ)
    (src : Frame) (w h : ℤ) (sd : SeqData)
    (h1 : sd.analyzedMoshFrame = p.moshFrame) (h2 : sd.analyzedDuration = p.duration)
    (h3 : sd.analyzedBlockSize = p.blockSize)
    (hc : sd.analysisState = AnalysisState.Complete) :
    (renderStep p cf src w h sd).2.precomputeRuns = sd.precomputeRuns ∧
    (renderStep p cf src w h sd).2.analysisState = AnalysisState.Complete ∧
    (renderStep p cf src w h sd).2.analyzedMoshFrame = p.moshFrame ∧
    (renderStep p cf src w h sd).2.analyzedDuration = p.duration ∧
    (renderStep p cf src w h sd).2.analyzedBlockSize = p.blockSize := by
  obtain ⟨m1, m2, m3, m4⟩ := renderIngest_meta p cf src sd
  have hing := renderIngest_of_complete p cf src sd h1 h2 h3 hc
  have hstep : (renderStep p cf src w h sd).2 =
      (renderServe p cf src w h (renderIngest p cf src sd)).2 := rfl
  rcases renderServe_state_cases p cf src w h (renderIngest p cf src sd) with
    hcase | ⟨-, -, hnc⟩
  · rw [hstep, hcase]
    exact ⟨m4, hing, m1, m2, m3⟩
  · exact absurd hing hnc

theorem renderTrace_cons (p : WindowParameters) (w h : ℤ) (r : ℤ × Frame)
    (rs : List (ℤ × Frame)) (sd : SeqData) :
    renderTrace p w h (r :: rs) sd =
      renderTrace p w h rs (renderStep p r.1 r.2 w h sd).2 := rfl

theorem renderTrace_runs_bound (p : WindowParameters) (w h : ℤ) :
    ∀ (reqs : List (ℤ × Frame)) (sd : SeqData),
      ((sd.analyzedMoshFrame = p.moshFrame ∧ sd.analyzedDuration = p.duration ∧
          sd.analyzedBlockSize = p.blockSize ∧
          sd.analysisState = AnalysisState.Complete) →
        (renderTrace p w h reqs sd).precomputeRuns = sd.precomputeRuns ∧
        (renderTrace p w h reqs sd).analyzedMoshFrame = p.moshFrame ∧
        (renderTrace p w h reqs sd).analyzedDuration = p.duration ∧
        (renderTrace p w h reqs sd).analyzedBlockSize = p.blockSize ∧
        (renderTrace p w h reqs sd).analysisState = AnalysisState.Complete) ∧
      (renderTrace p w h reqs sd).precomputeRuns ≤ sd.precomputeRuns + 1 := by
  intro reqs
  induction reqs with
  | nil =>
      intro sd
      exact ⟨fun hb => ⟨rfl, hb.1, hb.2.1, hb.2.2.1, hb.2.2.2⟩, Nat.le_succ _⟩
  | cons r rs ih =>
      intro sd
      rw [renderTrace_cons]
      constructor
      · intro hb
        obtain ⟨a1, a2, a3, a4, a5⟩ := renderStep_complete_absorbing p r.1 r.2 w h sd
          hb.1 hb.2.1 hb.2.2.1 hb.2.2.2
        obtain ⟨f1, -⟩ := ih (renderStep p r.1 r.2 w h sd).2
        obtain ⟨g1, g2, g3, g4, g5⟩ := f1 ⟨a3, a4, a5, a2⟩
        exact ⟨g1.trans a1, g2, g3, g4, g5⟩
      · rcases renderStep_runs_cases p r.1 r.2 w h sd with
          hsame | ⟨hinc, hcomp, hm1, hm2, hm3, -, -⟩
        · obtain ⟨-, f2⟩ := ih (renderStep p r.1 r.2 w h sd).2
          calc (renderTrace p w h rs (renderStep p r.1 r.2 w h sd).2).precomputeRuns
              ≤ (renderStep p r.1 r.2 w h sd).2.precomputeRuns + 1 := f2
            _ = sd.precomputeRuns + 1 := by rw [hsame]
        · obtain ⟨f1, -⟩ := ih (renderStep p r.1 r.2 w h sd).2
          obtain ⟨g1, -, -, -, -⟩ := f1 ⟨hm1, hm2, hm3, hcomp⟩
          rw [g1, hinc]

theorem renderStep_serves_precomputed (p : WindowParameters) (cf : ℤ)
    (src : Frame) (w h : ℤ) (sd : SeqData) (wf : Frame)
    (h1 : sd.analyzedMoshFrame = p.moshFrame) (h2 : sd.analyzedDuration = p.duration)
    (h3 : sd.analyzedBlockSize = p.blockSize)
    (hin1 : p.moshFrame ≤ cf) (hin2 : cf < p.moshFrame + p.duration) (hcf : 0 ≤ cf)
    (hw : sd.cache (warpedKey cf) = some wf) :
    (renderStep p cf src w h sd).1 = blendFrame src wf p.blend ∧
    (renderStep p cf src w h sd).2.precomputeRuns = sd.precomputeRuns := by
  obtain ⟨-, -, -, m4⟩ := renderIngest_meta p cf src sd
  have hing : (renderIngest p cf src sd).cache (warpedKey cf) = some wf := by
    obtain ⟨-, -, -, -, -, fc⟩ :=
      ingestRef_meta p cf src (ingestCache cf src (ingestReset p sd))
    show (ingestRef p cf src (ingestCache cf src (ingestReset p sd))).cache
      (warpedKey cf) = some wf
    rw [fc, ingestCache_cache_ne cf src (ingestReset p sd) (warpedKey cf)
      (by unfold warpedKey; omega), ingestReset_of_matches p sd h1 h2 h3, hw]
  have hstep : renderStep p cf src w h sd =
      renderServe p cf src w h (renderIngest p cf src sd) := rfl
  rw [hstep]
  unfold renderServe
  rw [if_neg (by omega), hing]
  exact ⟨rfl, m4⟩

/-- C4: under a fixed parameter configuration `p`, (1) over any sequence of
render calls the precompute fold runs at most once (the ghost call counter
rises by at most 1 from any starting state); (2) a call in which it runs is
one where, after ingesting the observed frame, the reference frame and every
raw input frame in `[moshFrame-1, moshFrame+duration)` are present in the
cache and the analysis is not yet `Complete`, and the run leaves the state
`Complete`; (3) once a warped result is stored, an in-window call is served
by blending the stored result — without running the fold again. -/
theorem precompute_runs_once (p : WindowParameters) (w h : ℤ) :
    (∀ (reqs : List (ℤ × Frame)) (sd : SeqData),
      (renderTrace p w h reqs sd).precomputeRuns ≤ sd.precomputeRuns + 1) ∧
    (∀ (cf : ℤ) (src : Frame) (sd : SeqData),
      (renderStep p cf src w h sd).2.precomputeRuns ≠ sd.precomputeRuns →
        (renderStep p cf src w h sd).2.precomputeRuns = sd.precomputeRuns + 1 ∧
        hasAllInputs p (renderIngest p cf src sd) = true ∧
        (renderIngest p cf src sd).analysisState ≠ AnalysisState.Complete ∧
        (renderStep p cf src w h sd).2.analysisState = AnalysisState.Complete) ∧
    (∀ (cf : ℤ) (src : Frame) (sd : SeqData) (wf : Frame),
      sd.analyzedMoshFrame = p.moshFrame → sd.analyzedDuration = p.duration →
      sd.analyzedBlockSize = p.blockSize → p.moshFrame ≤ cf →
      cf < p.moshFrame + p.duration → 0 ≤ cf →
      sd.cache (warpedKey cf) = some wf →
      (renderStep p cf src w h sd).1 = blendFrame src wf p.blend ∧
      (renderStep p cf src w h sd).2.precomputeRuns = sd.precomputeRuns) := by
  refine ⟨fun reqs sd => (renderTrace_runs_bound p w h reqs sd).2, ?_, ?_⟩
  · intro cf src sd hne
    rcases renderStep_runs_cases p cf src w h sd with
      hsame | ⟨hinc, hcomp, -, -, -, hall, hnc⟩
    · exact absurd hsame hne
    · exact ⟨hinc, hall, hnc, hcomp⟩
  · intro cf src sd wf h1 h2 h3 hin1 hin2 hcf hw
    exact renderStep_serves_precomputed p cf src w h sd wf h1 h2 h3 hin1 hin2 hcf hw

/-- The window parameters of the C4 witness, matching the analysed
configuration of `seqDataC1`. -/
def paramsC4 : WindowParameters := ⟨1, 1, 16, 16, 1⟩

/-- The window parameters matching the analysed configuration of `seqDataC3`. -/
def paramsC4b : WindowParameters := ⟨10, 5, 16, 16, 1⟩

unseal Rat.add Rat.sub Rat.mul Rat.inv in
/-- Witness for C4: a concrete one-call trace obeys the counter bound; the
concrete ready state `seqDataC1` actually triggers the precompute with all
inputs present; the concrete `Complete` state `seqDataC3` serves its stored
warped result without touching the counter. -/
theorem precompute_runs_once_wit :
    (renderTrace paramsC4 1 1 [(1, rawFrameB)] seqDataC1).precomputeRuns ≤
      seqDataC1.precomputeRuns + 1 ∧
    ((renderStep paramsC4 1 rawFrameB 1 1 seqDataC1).2.precomputeRuns =
        seqDataC1.precomputeRuns + 1 ∧
      hasAllInputs paramsC4 (renderIngest paramsC4 1 rawFrameB seqDataC1) = true ∧
      (renderIngest paramsC4 1 rawFrameB seqDataC1).analysisState ≠
        AnalysisState.Complete ∧
      (renderStep paramsC4 1 rawFrameB 1 1 seqDataC1).2.analysisState =
        AnalysisState.Complete) ∧
    ((renderStep paramsC4b 10 (emptyFrame 1 1) 1 1 seqDataC3).1 =
        blendFrame (emptyFrame 1 1) warpedFrameW paramsC4b.blend ∧
      (renderStep paramsC4b 10 (emptyFrame 1 1) 1 1 seqDataC3).2.precomputeRuns =
        seqDataC3.precomputeRuns) :=
  ⟨(precompute_runs_once paramsC4 1 1).1 [(1, rawFrameB)] seqDataC1,
   (precompute_runs_once paramsC4 1 1).2.1 1 rawFrameB seqDataC1 (by decide),
   (precompute_runs_once paramsC4b 1 1).2.2 10 (emptyFrame 1 1) seqDataC3
     warpedFrameW rfl rfl rfl (by norm_num [paramsC4b]) (by norm_num [paramsC4b])
     (by norm_num) rfl⟩

end MoshBrosh
